import Mathlib

/-!
Verification of the `craw` web-crawler repository.

The TypeScript source is shallowly embedded: pure string/number
manipulation is translated directly; DOM (cheerio) queries are abstracted
into record fields holding the query results the source code reads, and
each extraction function is translated as a pure function of such a
record.  JS `number` arithmetic on the prices occurring here is modelled
exactly with rationals; all values involved are far from rounding
boundaries of binary doubles, so the modelled results coincide with the
ones the double-precision evaluation produces.
-/

namespace Craw

/-- JS `\s` (whitespace class), restricted to the ASCII whitespace
characters that the crawler's text pipeline can encounter. -/
def isJsWs (c : Char) : Bool :=
  c = ' ' || c = '\t' || c = '\n' || c = '\r' || c = '\x0b' || c = '\x0c'

/-- One step of `replace(/\s+/g, " ")`: collapse every maximal whitespace
run to a single space.  The Boolean argument records whether the previous
character was part of a whitespace run. -/
def collapseGo : Bool → List Char → List Char
  | _, [] => []
  | prevWs, c :: rest =>
    if isJsWs c then
      if prevWs then collapseGo true rest else ' ' :: collapseGo true rest
    else c :: collapseGo false rest

/-- Model of `trimStart` on a character list, for JS whitespace. -/
def dropWsLeft (l : List Char) : List Char := l.dropWhile isJsWs

/-- JS `String.prototype.trim` on a character list. -/
def trimWs (l : List Char) : List Char :=
  ((dropWsLeft l.reverse).reverse).dropWhile isJsWs

/-- Model of `cleanText` from `product-extractor.ts`:
`text.replace(/\s+/g, " ").trim()`. -/
def cleanText (s : String) : String :=
  String.mk (trimWs (collapseGo false s.data))

/-- Number of maximal whitespace runs in a character list (the number of
matches of `/\s+/`). -/
def wsRunsGo : Bool → List Char → Nat
  | _, [] => 0
  | inRun, c :: rest =>
    if isJsWs c then
      if inRun then wsRunsGo true rest else 1 + wsRunsGo true rest
    else wsRunsGo false rest

/-- Length of the array `s.split(/\s+/)` in JS: one field per gap between
matches, including the empty leading/trailing fields, so
`matches + 1`. -/
def splitWsLen (s : String) : Nat := wsRunsGo false s.data + 1

/-- Character-list prefix test. -/
def isPrefixCh : List Char → List Char → Bool
  | [], _ => true
  | _ :: _, [] => false
  | a :: as, b :: bs => a = b && isPrefixCh as bs

/-- JS `String.prototype.includes` on character lists (substring test). -/
def containsSub (hay needle : List Char) : Bool :=
  isPrefixCh needle hay ||
    match hay with
    | [] => false
    | _ :: t => containsSub t needle

/-- JS `String.prototype.includes`. -/
def strIncludes (hay needle : String) : Bool := containsSub hay.data needle.data

/-- JS `String.prototype.startsWith` (character-list based). -/
def strStartsWith (s pre : String) : Bool := isPrefixCh pre.data s.data

/-- ASCII `toLowerCase` on one character (the source only ever compares
ASCII selector/style text). -/
def lowerCh (c : Char) : Char :=
  if 'A' ≤ c ∧ c ≤ 'Z' then Char.ofNat (c.toNat + 32) else c

/-- ASCII `String.prototype.toLowerCase`. -/
def lowerStr (s : String) : String := String.mk (s.data.map lowerCh)

/-- JS `??` on a possibly-undefined string (left operand from `attr(..)`,
which yields `undefined` when the attribute or element is missing). -/
def jsNullish (a : Option String) (b : String) : String := a.getD b

/-! ## Price parsing (`src/product-extractor.ts`, `parsePrice`) -/

/-- The character filter `raw.replace(/[^\d.,]/g, "")`: keep digits, `.`
and `,`. -/
def keepPriceChars (l : List Char) : List Char :=
  l.filter fun c => c.isDigit || c = '.' || c = ','

/-- The lookahead `(?=\d{3}(?:[,]|$))`: exactly three digits followed by a
comma or the end of the string. -/
def thousandsLookahead : List Char → Bool
  | d1 :: d2 :: d3 :: rest =>
    d1.isDigit && d2.isDigit && d3.isDigit &&
      (rest.isEmpty || rest.head? = some ',')
  | _ => false

/-- Model of `s.replace(/\.(?=\d{3}(?:[,]|$))/g, "")`: drop every period whose
suffix matches the thousands lookahead. -/
def stripThousandsDots : List Char → List Char
  | [] => []
  | c :: rest =>
    if c = '.' && thousandsLookahead rest then stripThousandsDots rest
    else c :: stripThousandsDots rest

/-- Model of `s.replace(",", ".")` — JS replaces only the first occurrence when the
pattern is a plain string. -/
def replaceFirstComma : List Char → List Char
  | [] => []
  | c :: rest => if c = ',' then '.' :: rest else c :: replaceFirstComma rest

/-- Digit list to natural number. -/
def digitsVal (l : List Char) : Nat :=
  l.foldl (fun acc c => acc * 10 + (c.toNat - '0'.toNat)) 0

/-- Exact model of the nonnegative JS numbers flowing through the price
pipeline: an unnormalized fraction `num / den`.  The arithmetic performed
on prices (one parse, one division by `1.21`, one `toFixed(2)`) is exact
rational arithmetic here; at every value these claims touch, the binary
double evaluation rounds to the same two-decimal output. -/
structure JsNum where
  num : Nat
  den : Nat
deriving DecidableEq, Repr

/-- The rational value of a `JsNum` (used in statements only). -/
def JsNum.toRat (x : JsNum) : ℚ := (x.num : ℚ) / (x.den : ℚ)

/-- JS `parseFloat` restricted to the character set reachable after the
price filter (digits, `.`, `,`): parse the longest prefix of the form
`digits [ "." digits ]`; `NaN` (here `none`) when no digit is read. -/
def jsParseFloat (l : List Char) : Option JsNum :=
  let intDs := l.takeWhile Char.isDigit
  let rest := l.drop intDs.length
  match rest with
  | '.' :: r2 =>
    let fracDs := r2.takeWhile Char.isDigit
    if intDs.isEmpty && fracDs.isEmpty then none
    else some ⟨digitsVal intDs * 10 ^ fracDs.length + digitsVal fracDs, 10 ^ fracDs.length⟩
  | _ => if intDs.isEmpty then none else some ⟨digitsVal intDs, 1⟩

/-- Model of `parsePrice` from `src/product-extractor.ts` (and its copy in the
dynamic-variant extractor): strip everything but digits, `.`, `,`; reject
the empty result; remove thousands periods; turn the first comma into a
decimal point; `parseFloat`; `NaN ↦ null`. -/
def parsePrice (raw : String) : Option JsNum :=
  let s := keepPriceChars raw.data
  if s.isEmpty then none
  else jsParseFloat (replaceFirstComma (stripThousandsDots s))

/-- Two-digit zero-padded rendering of `m % 100`. -/
def twoDigits (m : Nat) : String :=
  if m < 10 then "0" ++ toString m else toString m

/-- Model of `num / 1.21`, the VAT division applied to every variant price:
`(n/d) / (121/100) = (100 n)/(121 d)`. -/
def JsNum.divVat (x : JsNum) : JsNum := ⟨x.num * 100, x.den * 121⟩

/-- Model of `formatPrice` = `num.toFixed(2)`, for the nonnegative prices this
program produces: round `x·100` to the nearest integer —
`⌊100·x + 1/2⌋ = (200·num + den) / (2·den)` (the values occurring here
are never ties) — and print with two decimals. -/
def formatPrice (x : JsNum) : String :=
  let m : Nat := (200 * x.num + x.den) / (2 * x.den)
  toString (m / 100) ++ "." ++ twoDigits (m % 100)

/-- price-incl-VAT text → price-excl-VAT text, as computed for every
variant: `parsePrice(raw)` then `formatPrice(num / 1.21)`, empty when the
price does not parse. -/
def priceExclVat (raw : String) : String :=
  match parsePrice raw with
  | some q => formatPrice q.divVat
  | none => ""

/-! ## Product extraction (`src/src/product-extractor.ts`) -/

/-- JS `String.prototype.trim`. -/
def trimStr (s : String) : String := String.mk (trimWs s.data)

/-- Model of `BASE_URL` from the product extractor. -/
def BASE_URL : String := "https://www.artcrystal.eu"

/-- Model of `makeAbsolute` from the product extractor. -/
def makeAbsolute (href : String) : String :=
  if href = "" then ""
  else if strStartsWith href "http://" || strStartsWith href "https://" then href
  else BASE_URL ++ (if strStartsWith href "/" then href else "/" ++ href)

/-- Characters kept by `toSnakeCase`: lowercase ASCII letters and
digits. -/
def isSnakeKeep (c : Char) : Bool := ('a' ≤ c && c ≤ 'z') || c.isDigit

/-- Model of `replace(/[^a-z0-9]+/g, "_")`: collapse every maximal run of
non-kept characters to one underscore. -/
def snakeCollapse : Bool → List Char → List Char
  | _, [] => []
  | prev, c :: rest =>
    if isSnakeKeep c then c :: snakeCollapse false rest
    else if prev then snakeCollapse true rest
    else '_' :: snakeCollapse true rest

/-- Model of `replace(/^_+|_+$/g, "")`. -/
def stripEdgeUnderscores (l : List Char) : List Char :=
  (((l.dropWhile (· = '_')).reverse.dropWhile (· = '_'))).reverse

/-- Model of `toSnakeCase` from the product extractor. -/
def toSnakeCase (s : String) : String :=
  String.mk (stripEdgeUnderscores (snakeCollapse false ((lowerStr s).data)))

/-- Model of `PARAM_KEY_MAP`: known parameter label → snake_case key. -/
def PARAM_KEY_MAP : List (String × String) :=
  [("category", "category"), ("diameter", "diameter"), ("height", "height"),
   ("weight", "weight"), ("number of bulbs", "bulb_count"),
   ("max wattage/socket", "max_wattage"), ("max. wattage/socket", "max_wattage"),
   ("material", "material"), ("color", "color"), ("bulb type", "bulb_type"),
   ("bulb base", "bulb_base"), ("ip rating", "ip_rating"), ("voltage", "voltage")]

/-- Model of `normalizeParamKey`: consult `PARAM_KEY_MAP` on the lowercased,
trimmed label, else fall back to `toSnakeCase` of the raw label. -/
def normalizeParamKey (raw : String) : String :=
  (PARAM_KEY_MAP.lookup (trimStr (lowerStr raw))).getD (toSnakeCase raw)

/-- JS object property assignment `obj[k] = v` on an insertion-ordered
association list: overwrite in place, else append. -/
def objSet : List (String × String) → String → String → List (String × String)
  | [], k, v => [(k, v)]
  | (k', v') :: rest, k, v =>
    if k' = k then (k, v) :: rest else (k', v') :: objSet rest k v

/-- One `.s1-buttonRow` element, abstracted to the query results the
static extractor reads from it. -/
structure VariantRowS where
  /-- text of the first `.s1-buttonRow-val .s1-buttonRow-txt` -/
  valTxt : String
  /-- text of the first `.s1-buttonRow-identifier .s1-buttonRow-txt` -/
  identTxt : String
  /-- text of the first `.price .priceCombTaxValueNumber` in the row -/
  priceTxt : String
  /-- Model of `style` attribute of the first `.s1-buttonRow-wh` (`none` when the
  element or attribute is missing, as `attr` then yields `undefined`) -/
  whStyle : Option String
  /-- text of the first `.s1-buttonRow-wh` -/
  whText : String
deriving DecidableEq, Repr

/-- One `table.tabAdditionalInfo tr`, abstracted to its `td` texts and
the first `<a>` of the second `td`. -/
structure InfoRow where
  tdTexts : List String
  valLinkText : String
  valLinkHref : Option String
deriving DecidableEq, Repr

/-- A product page, abstracted to the DOM query results
`extractProduct` (static variant shape) reads. -/
structure ProductDocS where
  h1NameText : String
  canonicalHref : Option String
  shortDescText : String
  longDescText : String
  breadcrumbTexts : List String
  infoRows : List InfoRow
  variantRows : List VariantRowS
  /-- text of the page-global first `.price .priceCombTaxValueNumber` -/
  mainPriceText : String
  galleryDataFull : List String
  indicatorTexts : List String
deriving DecidableEq, Repr

/-- The fixed-shape variant record of `product-types.ts`. -/
structure ProductVariantS where
  color : String
  art_no : String
  price_incl_vat : String
  price_excl_vat : String
  in_stock : Bool
  status_text : String
deriving DecidableEq, Repr

/-- Model of `ProductData` (static shape). -/
structure ProductDataS where
  name : String
  url : String
  short_description : String
  long_description : String
  breadcrumb : List String
  categoryName : String
  categoryUrl : String
  parameters : List (String × String)
  variants : List ProductVariantS
  images : List String
  badges : List String
deriving DecidableEq, Repr

/-- The body of the `.s1-buttonRow` loop in the static extractor. -/
def mkVariantS (r : VariantRowS) : ProductVariantS :=
  let priceInclRaw := cleanText r.priceTxt
  { color := cleanText r.valTxt
    art_no := cleanText r.identTxt
    price_incl_vat := priceInclRaw
    price_excl_vat := priceExclVat priceInclRaw
    in_stock := strIncludes (lowerStr (r.whStyle.getD "")) "#228b22"
    status_text := cleanText r.whText }

/-- The `table.tabAdditionalInfo` loop: the category `(name, url)` pair
(last matching row wins, the mutable variables are overwritten) and the
parameters object. -/
def infoFold (rows : List InfoRow) :
    (String × String) × List (String × String) :=
  rows.foldl
    (fun (acc : (String × String) × List (String × String)) row =>
      if row.tdTexts.length < 2 then acc
      else
        let rawKey := cleanText (row.tdTexts.headD "")
        if lowerStr rawKey = "category" then
          ((cleanText row.valLinkText, makeAbsolute (row.valLinkHref.getD "")),
            acc.2)
        else
          let paramKey := normalizeParamKey rawKey
          let paramVal := cleanText (row.tdTexts.getD 1 "")
          if paramKey ≠ "" && paramVal ≠ "" then (acc.1, objSet acc.2 paramKey paramVal)
          else acc)
    (("", ""), [])

/-- Model of `extractProduct` from `src/src/product-extractor.ts`, over the
abstracted page. -/
def extractProduct (doc : ProductDocS) (sourceUrl : String) : ProductDataS :=
  let catParams := infoFold doc.infoRows
  let variants := doc.variantRows.map mkVariantS
  let variants :=
    if variants.isEmpty then
      let mainPriceRaw := cleanText doc.mainPriceText
      if mainPriceRaw ≠ "" then
        [{ color := "", art_no := "", price_incl_vat := mainPriceRaw,
           price_excl_vat := priceExclVat mainPriceRaw,
           in_stock := false, status_text := "" }]
      else []
    else variants
  { name := cleanText doc.h1NameText
    url := jsNullish (doc.canonicalHref.map trimStr) sourceUrl
    short_description := cleanText doc.shortDescText
    long_description := cleanText doc.longDescText
    breadcrumb := doc.breadcrumbTexts.filterMap fun t =>
      let c := cleanText t; if c ≠ "" then some c else none
    categoryName := catParams.1.1
    categoryUrl := catParams.1.2
    parameters := catParams.2
    variants := variants
    images := doc.galleryDataFull.filterMap fun s =>
      if s ≠ "" then some (makeAbsolute s) else none
    badges := doc.indicatorTexts.filterMap fun t =>
      let c := cleanText t; if c ≠ "" then some c else none }

/-! ## Dynamic-variant product extraction (the second `extractProduct`,
in the unnamed dynamic extractor file) -/

/-- One `.s1-buttonRow` element as read by the dynamic extractor:
each `.s1-buttonRow-val` and `.s1-buttonRow-line` contributes a
`(label text without the nested txt span, first nested txt span text)`
pair. -/
structure VariantRowD where
  vals : List (String × String)
  lines : List (String × String)
  priceTxt : String
  whStyle : Option String
  whText : String
deriving DecidableEq, Repr

/-- A product page as read by the dynamic extractor. -/
structure ProductDocD where
  h1NameText : String
  canonicalHref : Option String
  shortDescText : String
  longDescText : String
  /-- per breadcrumb anchor: (`span[itemprop=name]` text, full anchor
  text, `href` attribute) -/
  breadcrumbAnchors : List (String × String × Option String)
  /-- per info-table row: `td` texts -/
  infoRowTds : List (List String)
  variantRows : List VariantRowD
  mainPriceText : String
  galleryDataFull : List String
  indicatorTexts : List String
deriving DecidableEq, Repr

/-- Model of `ProductData` (dynamic shape): variants are open string→string
objects. -/
structure ProductDataD where
  name : String
  url : String
  short_description : String
  long_description : String
  breadcrumb : List (String × String)
  parameters : List (String × String)
  variants : List (List (String × String))
  images : List String
  badges : List String
deriving DecidableEq, Repr

/-- Fold one labelled `(label, value)` group into the dynamic variant
object: skip empty values, snake-case non-empty labels, and fall back to
a positional `pre<n>` key (`attr_` or `line_`) counting the keys already
present. -/
def dynGroupFold (pre : String) (acc : List (String × String))
    (grp : List (String × String)) : List (String × String) :=
  grp.foldl
    (fun acc (lv : String × String) =>
      let value := cleanText lv.2
      if value = "" then acc
      else
        let labelRaw := cleanText lv.1
        let key := if labelRaw ≠ "" then toSnakeCase labelRaw
                   else pre ++ toString (acc.length + 1)
        if key ≠ "" then objSet acc key value else acc)
    acc

/-- The body of the `.s1-buttonRow` loop in the dynamic extractor. -/
def mkVariantD (r : VariantRowD) : List (String × String) :=
  let v := dynGroupFold "attr_" [] r.vals
  let v := dynGroupFold "line_" v r.lines
  let priceInclRaw := cleanText r.priceTxt
  let v :=
    if priceInclRaw ≠ "" then
      objSet (objSet v "price_incl_vat" priceInclRaw)
        "price_excl_vat" (priceExclVat priceInclRaw)
    else v
  let v := objSet v "in_stock"
    (if strIncludes (lowerStr (r.whStyle.getD "")) "#228b22" then "true" else "false")
  let statusText := cleanText r.whText
  if statusText ≠ "" then objSet v "status_text" statusText else v

/-- The second `extractProduct` (dynamic-variant extractor), over the
abstracted page. -/
def extractProductDyn (doc : ProductDocD) (sourceUrl : String) : ProductDataD :=
  let variants := doc.variantRows.map mkVariantD
  let variants :=
    if variants.isEmpty then
      let mainPriceRaw := cleanText doc.mainPriceText
      if mainPriceRaw ≠ "" then
        [[("price_incl_vat", mainPriceRaw),
          ("price_excl_vat", priceExclVat mainPriceRaw),
          ("in_stock", "false")]]
      else []
    else variants
  { name := cleanText doc.h1NameText
    url := jsNullish (doc.canonicalHref.map trimStr) sourceUrl
    short_description := cleanText doc.shortDescText
    long_description := cleanText doc.longDescText
    breadcrumb := doc.breadcrumbAnchors.filterMap fun a =>
      let title := cleanText (if a.1 ≠ "" then a.1 else a.2.1)
      if title ≠ "" then some (title, makeAbsolute (a.2.2.getD "")) else none
    parameters := doc.infoRowTds.foldl
      (fun params tds =>
        if tds.length < 2 then params
        else
          let paramKey := toSnakeCase (cleanText (tds.headD ""))
          let paramVal := cleanText (tds.getD 1 "")
          if paramKey ≠ "" && paramVal ≠ "" then objSet params paramKey paramVal
          else params)
      []
    variants := variants
    images := doc.galleryDataFull.filterMap fun s =>
      if s ≠ "" then some (makeAbsolute s) else none
    badges := doc.indicatorTexts.filterMap fun t =>
      let c := cleanText t; if c ≠ "" then some c else none }

/-! ## Retry wrapper (`utils`, `withRetry`) -/

/-- An effectful operation, shallowly embedded as a function from the
attempt number (the JS thunk may behave differently on each call) to a
success value or a thrown error. -/
def Operation (E A : Type) := Nat → Except E A

/-- The trace of one `withRetry` run: the final outcome, the number of
times the operation was invoked, and the list of `sleep` durations
performed (milliseconds). -/
structure RetryTrace (E A : Type) where
  result : Except E A
  calls : Nat
  sleeps : List Nat

/-- Model of `withRetry` from `utils`: run the operation; on a thrown error, sleep
1000 ms and run it once more; on a second error, re-throw the first
error. -/
def withRetry {E A : Type} (op : Operation E A) : RetryTrace E A :=
  match op 0 with
  | .ok a => ⟨.ok a, 1, []⟩
  | .error firstError =>
    match op 1 with
    | .ok a => ⟨.ok a, 2, [1000]⟩
    | .error _ => ⟨.error firstError, 2, [1000]⟩

/-! ## Batch scheduler (`utils`, `runInBatches`) -/

/-- One progress callback invocation
`onItemDone(completed, total, item, result)`. -/
structure DoneEvent (T R : Type) where
  completed : Nat
  total : Nat
  item : T
  result : R

/-- The events fired by one window: the window's tasks settle in an
arbitrary interleaving, given by `order` (positions into the window);
the shared `completed` counter has value `base` when the window starts
and is incremented once per completion. -/
def windowEvents {T R : Type} (task : T → R) (base total : Nat)
    (batch : List T) (order : List Nat) : List (DoneEvent T R) :=
  (order.enum).filterMap fun p =>
    (batch.get? p.2).map fun t => ⟨base + p.1 + 1, total, t, task t⟩

/-- Model of `runInBatches` from `utils`, with an explicit completion schedule:
`items` is consumed in windows of `concurrency` (`items.slice(i, i +
concurrency)`); `Promise.all` collects the window's results in window
position order, and `results.push(...batchResults)` appends them, so the
returned array is in input order; `sched` supplies, per window, the order
in which the window's tasks complete, which affects only the emitted
events.  `done` is the value of the shared `completed` counter.  (For
`concurrency = 0` the JS loop would not terminate; the model is only
used, and only claimed faithful, for `concurrency ≥ 1`.) -/
def runInBatchesTr {T R : Type} (concurrency total : Nat) (task : T → R) :
    List T → List (List Nat) → Nat → List R × List (DoneEvent T R)
  | [], _, _ => ([], [])
  | x :: xs, sched, done =>
    let batch := x :: xs.take (concurrency - 1)
    let order := sched.headD (List.range batch.length)
    let evs := windowEvents task done total batch order
    let rec' := runInBatchesTr concurrency total task (xs.drop (concurrency - 1))
      (sched.drop 1) (done + batch.length)
    (batch.map task ++ rec'.1, evs ++ rec'.2)
termination_by items => items.length
decreasing_by
  simp only [List.length_drop, List.length_cons]
  omega

/-- Model of `runInBatches(items, concurrency, delayMs, processor, onItemDone)`:
the returned result array, together with the `onItemDone` trace, under
completion schedule `sched`. -/
def runInBatches {T R : Type} (items : List T) (concurrency : Nat)
    (task : T → R) (sched : List (List Nat)) :
    List R × List (DoneEvent T R) :=
  runInBatchesTr concurrency items.length task items sched 0

/-! ## Deduplicator (`utils`, `deduplicateUrls`) -/

/-- Model of `url.replace(/\/$/, "")`: strip exactly one trailing slash. -/
def normalizeUrl (u : String) : String :=
  if u.data.getLast? = some '/' then String.mk (u.data.dropLast) else u

/-- The loop of `deduplicateUrls`, with the `seen` set as a list of
normalized keys. -/
def dedupGo (seen : List String) : List String → List String
  | [] => []
  | u :: rest =>
    let n := normalizeUrl u
    if n ∈ seen then dedupGo seen rest
    else u :: dedupGo (n :: seen) rest

/-- Model of `deduplicateUrls` from `utils`: keep the first occurrence (original,
non-normalized string) of each normalized key. -/
def deduplicateUrls (urls : List String) : List String := dedupGo [] urls

/-- First-occurrence-wins deduplication as the spec words it: keep the
head and drop every later URL whose normalized key equals the head's,
recursively.  (Spec-side characterization, to be proved equal to
`deduplicateUrls`.) -/
def dedupeSpec : List String → List String
  | [] => []
  | u :: rest =>
    u :: dedupeSpec (rest.filter fun v => normalizeUrl v ≠ normalizeUrl u)
termination_by l => l.length
decreasing_by
  have := List.length_filter_le (fun v => decide (normalizeUrl v ≠ normalizeUrl u)) rest
  simp only [List.length_cons]
  omega

/-! ## Generic-page crawler (`crawler` module: `crawlPage` and its
helpers) -/

/-- A page as read by `extractContent`, after the noise elements
(`script, style, noscript, iframe, svg, nav, header, footer`) have been
removed: `selectorTexts` holds, per entry of `CONTENT_SELECTORS`
(`main`, `article`, `.main-content`, `.content`, `#content`,
`.page-content`), the text of the first matching element, or `none` when
no element matches; `bodyText` is the text of `body`. -/
structure PageDoc where
  selectorTexts : List (Option String)
  bodyText : String
deriving DecidableEq, Repr

/-- The selector loop of `extractContent`: it `break`s at the first
selector with a matching element (`if (el.length)`), even when that
element's text is empty. -/
def firstExisting : List (Option String) → Option String
  | [] => none
  | some t :: _ => some t
  | none :: rest => firstExisting rest

/-- The text `extractContent` settles on before cleanup: the first
matching selector's text, or `body`'s text when no selector matched or
the matched text was empty (`if (!text)`). -/
def selectedText (d : PageDoc) : String :=
  let text := (firstExisting d.selectorTexts).getD ""
  if text = "" then d.bodyText else text

/-- Model of `text.replace(/\s+/g, " ").trim()` inside `extractContent`. -/
def cleanedText (d : PageDoc) : String :=
  trimStr (String.mk (collapseGo false (selectedText d).data))

/-- Model of `extractContent`: the cleaned text, hard-truncated by
`raw.slice(0, 2000)`. -/
def extractContent (d : PageDoc) : String :=
  String.mk ((cleanedText d).data.take 2000)

/-- The `word_count` computed by `crawlPage`:
`content ? content.split(/\s+/).length : 0`, on the **truncated**
content. -/
def pageWordCount (d : PageDoc) : Nat :=
  let content := extractContent d
  if content = "" then 0 else splitWsLen content

/-! ### Link harvesting (`extractLinks`) -/

/-- Model of `isSchemeChar` per WHATWG: ASCII alphanumeric, `+`, `-`, `.`. -/
def isSchemeChar (c : Char) : Bool := c.isAlphanum || c = '+' || c = '-' || c = '.'

/-- WHATWG special schemes relevant here (`file` omitted: the crawler's
anchors never carry it). -/
def specialSchemes : List String := ["http", "https", "ws", "wss", "ftp"]

/-- host[:port] of an authority: the part after the last `@`. -/
def authorityHostPort (auth : List Char) : List Char :=
  (auth.reverse.takeWhile (· ≠ '@')).reverse

/-- Model of `new URL(href).hostname` for an absolute URL string, `none`
when the constructor throws: the string must start with a scheme
(letter, then scheme characters, then `:`); special schemes skip any
slashes then read a non-empty host (empty → throw); other schemes have a
host only after `//`, else an opaque path with hostname `""`.  IPv6
literals and percent-encoded hosts are not modelled (the crawler's pages
do not contain them). -/
def jsUrlHostname (s : String) : Option String :=
  match s.data with
  | [] => none
  | c :: rest =>
    if ¬ c.isAlpha then none
    else
      let schemeTail := rest.takeWhile isSchemeChar
      match rest.drop schemeTail.length with
      | ':' :: r =>
        let scheme := String.mk ((c :: schemeTail).map lowerCh)
        if scheme ∈ specialSchemes then
          let r2 := r.dropWhile fun ch => ch = '/' || ch = '\\'
          let auth := r2.takeWhile fun ch =>
            ch ≠ '/' && ch ≠ '?' && ch ≠ '#' && ch ≠ '\\'
          let host := (authorityHostPort auth).takeWhile (· ≠ ':')
          if host.isEmpty then none else some (String.mk (host.map lowerCh))
        else if isPrefixCh ['/', '/'] r then
          let auth := (r.drop 2).takeWhile fun ch =>
            ch ≠ '/' && ch ≠ '?' && ch ≠ '#'
          let host := (authorityHostPort auth).takeWhile (· ≠ ':')
          some (String.mk (host.map lowerCh))
        else some ""
      | _ => none

/-- The `a[href]` loop of `extractLinks`: `internal` collects matching
hrefs in document order, `externalCount` counts the rest; excluded and
unparseable hrefs touch neither. -/
def extractLinksGo (baseHost : String) : List String → List String × Nat
  | [] => ([], 0)
  | href :: rest =>
    let r := extractLinksGo baseHost rest
    if href = "" || strStartsWith href "#" || strStartsWith href "mailto:" ||
        strStartsWith href "tel:" then r
    else if strStartsWith href "/" && ! strStartsWith href "//" then
      (href :: r.1, r.2)
    else
      match jsUrlHostname href with
      | some linkHost => if linkHost = baseHost then (href :: r.1, r.2) else (r.1, r.2 + 1)
      | none => r

/-- Model of `extractLinks`, over the list of `href` attribute values of the
page's `a[href]` anchors, in document order. -/
def extractLinks (hrefs : List String) (baseHost : String) : List String × Nat :=
  extractLinksGo baseHost hrefs

/-- Classification of one href: `none` = contributes to neither count
(excluded prefix, empty, or URL parse failure), `some true` = internal,
`some false` = external. -/
def linkClass (baseHost href : String) : Option Bool :=
  if href = "" || strStartsWith href "#" || strStartsWith href "mailto:" ||
      strStartsWith href "tel:" then none
  else if strStartsWith href "/" && ! strStartsWith href "//" then some true
  else
    match jsUrlHostname href with
    | some linkHost => some (linkHost = baseHost)
    | none => none

/-! ### JSON-LD, price cascade, page classification -/

/-- A JSON-LD `offers` node, holding the already-`String(...)`-coerced
values the crawler reads from it (`none` = property absent). -/
structure Offers where
  price : Option String
  lowPrice : Option String
  priceCurrency : Option String
deriving DecidableEq, Repr

/-- The `offers` property: a single object or an array. -/
inductive OffersVal where
  | single (o : Offers)
  | arr (l : List Offers)
deriving DecidableEq, Repr

/-- The first parsed JSON-LD block, restricted to the properties the
crawler reads (`@type`, `offers`). -/
structure JsonLd where
  offers : Option OffersVal
  atType : Option String
deriving DecidableEq, Repr

/-- Model of `resolveOffers`: the `offers` node itself, or its first element when
it is an array (`offers[0] ?? null`). -/
def resolveOffers (j : JsonLd) : Option Offers :=
  match j.offers with
  | none => none
  | some (.single o) => some o
  | some (.arr l) => l.head?

/-- The price-related DOM query results `extractPrice` reads. -/
structure PriceDoc where
  /-- Model of `$('[itemprop="price"]').attr("content")` (`none` = no element or
  no attribute) -/
  itempropPriceContent : Option String
  /-- Model of `$('[itemprop="price"]').text()` — always a string, `""` when no
  element matches -/
  itempropPriceText : String
  /-- Model of `$(".price, .product-price").first().text()` -/
  priceClassText : String
  /-- Model of `$('[itemprop="priceCurrency"]').attr("content")` -/
  itempropCurrencyContent : Option String
deriving DecidableEq, Repr

/-- Model of `extractPrice`: JSON-LD offers first; then the HTML fallback chain
`attr("content")?.trim() ?? text().trim() ?? classSelector…`.  The
middle operand of `??` is an unconditional string, which the embedding
records by wrapping it in `some`. -/
def extractPrice (d : PriceDoc) (jsonLd : Option JsonLd) : String × String :=
  let fromJsonLd : Option (String × String) :=
    match jsonLd with
    | some j =>
      match resolveOffers j with
      | some offers =>
        let p := (offers.price <|> offers.lowPrice).getD ""
        let c := (offers.priceCurrency).getD ""
        if p ≠ "" then some (p, c) else none
      | none => none
    | none => none
  match fromJsonLd with
  | some pc => pc
  | none =>
    let price := jsNullish (d.itempropPriceContent.map trimStr)
      (jsNullish (some (trimStr d.itempropPriceText))
        (trimStr (String.mk (keepPriceChars d.priceClassText.data))))
    let currency := jsNullish (d.itempropCurrencyContent.map trimStr) ""
    ((if price ≠ "" then price else ""), currency)

/-- Model of `PageData["page_type"]`. -/
inductive PageType where
  | article | category | product | gallery | page
deriving DecidableEq, Repr

/-- The suffix after the first occurrence of `needle`, scanning left to
right. -/
def dropThroughSub (hay needle : List Char) : Option (List Char) :=
  if isPrefixCh needle hay then some (hay.drop needle.length)
  else
    match hay with
    | [] => none
    | _ :: t => dropThroughSub t needle

/-- Model of `new URL(url).pathname` for the absolute http(s) URLs the crawler is
fed: the part from the first `/` after the `://`-authority up to `?` or
`#`, defaulting to `/`. -/
def urlPathname (url : String) : String :=
  match dropThroughSub url.data [':', '/', '/'] with
  | none => "/"
  | some rest =>
    let afterAuth := rest.dropWhile fun c => c ≠ '/' && c ≠ '?' && c ≠ '#'
    let path := afterAuth.takeWhile fun c => c ≠ '?' && c ≠ '#'
    match path with
    | '/' :: _ => String.mk path
    | _ => "/"

/-- The regex `/\/a\/\d+\//` anchored at one position: `/a/`, one or more
digits, `/`. -/
def articleAt : List Char → Bool
  | '/' :: 'a' :: '/' :: rest =>
    let ds := rest.takeWhile Char.isDigit
    ¬ ds.isEmpty && (rest.drop ds.length).head? = some '/'
  | _ => false

/-- Model of `re.test(s)`: does the pattern match at some position? -/
def anySuffix (p : List Char → Bool) : List Char → Bool
  | [] => p []
  | c :: t => p (c :: t) || anySuffix p t

/-- Model of `/\/a\/\d+\//.test(path)`. -/
def testArticlePath (path : String) : Bool := anySuffix articleAt path.data

/-- Model of `classifyPage`: URL path patterns in fixed order (article, category,
product, gallery), then the JSON-LD `@type` fallback, then `"page"`. -/
def classifyPage (url : String) (jsonLd : Option JsonLd) : PageType :=
  let path := urlPathname url
  if testArticlePath path then .article
  else if strIncludes path "/c/" || strIncludes path "/choose-" then .category
  else if strIncludes path "/p/" then .product
  else if strIncludes (lowerStr path) "gallery" then .gallery
  else
    match jsonLd with
    | some j =>
      let ty := lowerStr ((j.atType).getD "")
      if ty = "product" then .product
      else if ty = "article" || ty = "newsarticle" || ty = "blogposting" then .article
      else .page
    | none => .page

/-- An operation that fails with a distinct error on each attempt. -/
def twoFailOp : Operation String Nat :=
  fun n => if n = 0 then .error "first boom" else .error "second boom"

/-- The page used to exhibit the truncation/word-count interaction: no
semantic container matches, and `body`'s text is `"ab "` repeated 999
times followed by `"ab"` — 2999 characters, 1000 words, already
whitespace-collapsed and trimmed. -/
def longPageDoc : PageDoc :=
  ⟨[], String.mk ((List.replicate 999 ['a', 'b', ' ']).flatten ++ ['a', 'b'])⟩

end Craw

/-! # Theorems -/

namespace Craw

/-- C2 counterexample: the spec's second price vector is off: the
code's excl-VAT output for `"1 250,00 €"` is `"1033.06"`
(`1250 / 1.21 = 1033.057…`), not the claimed `"1032.23"`. -/
theorem c2_counterexample :
    (parsePrice "1 250,00 €").map (fun x => formatPrice x.divVat) = some "1033.06" ∧
      ("1033.06" : String) ≠ "1032.23" := by
  constructor
  · decide
  · decide

/-- C2 (amended): `parsePrice("770 €")` is the number 770 and its
excl-VAT rendering is `"636.36"`; `parsePrice("1 250,00 €")` is 1250 and
its excl-VAT rendering is `"1033.06"`; `parsePrice("N/A")` is `null`,
not zero and not a fault. -/
theorem c2_price_vectors :
    (parsePrice "770 €").map JsNum.toRat = some 770 ∧
      priceExclVat "770 €" = "636.36" ∧
      (parsePrice "1 250,00 €").map JsNum.toRat = some 1250 ∧
      priceExclVat "1 250,00 €" = "1033.06" ∧
      parsePrice "N/A" = none := by
  refine ⟨?_, by decide, ?_, by decide, by decide⟩
  · have h : parsePrice "770 €" = some ⟨770, 1⟩ := by decide
    rw [h]
    norm_num [Option.map_some, JsNum.toRat]
  · have h : parsePrice "1 250,00 €" = some ⟨125000, 100⟩ := by decide
    rw [h]
    norm_num [Option.map_some, JsNum.toRat]

/-- C3: `withRetry` runs the operation once when the first call
succeeds, returning its result; on a first failure it sleeps exactly
1000 ms and runs the operation exactly once more; when the second call
also fails, the first call's error is propagated. -/
theorem c3_withRetry {E A : Type} (op : Operation E A) :
    (∀ a, op 0 = .ok a → withRetry op = ⟨.ok a, 1, []⟩) ∧
      (∀ e, op 0 = .error e →
        (withRetry op).calls = 2 ∧ (withRetry op).sleeps = [1000]) ∧
      (∀ e e', op 0 = .error e → op 1 = .error e' →
        (withRetry op).result = .error e) := by
  refine ⟨fun a h => ?_, fun e h => ?_, fun e e' h h' => ?_⟩
  · simp [withRetry, h]
  · cases h2 : op 1 <;> simp [withRetry, h, h2]
  · simp [withRetry, h, h']

/-- Witness for C3: on an operation failing twice with distinct
messages, the trace shows two calls, one 1000 ms sleep, and the first
error surfaced. -/
theorem c3_withRetry_witness :
    withRetry twoFailOp = ⟨.error "first boom", 2, [1000]⟩ := by
  have h := (c3_withRetry twoFailOp).2
  have hc := h.1 "first boom" rfl
  have hr := h.2 "first boom" "second boom" rfl rfl
  have : withRetry twoFailOp =
      ⟨(withRetry twoFailOp).result, (withRetry twoFailOp).calls,
        (withRetry twoFailOp).sleeps⟩ := rfl
  rw [this, hr, hc.1, hc.2]

/-! ### Deduplicator lemmas -/

/-- The dedup loop returns a sublist of its input. -/
theorem dedupGo_sublist (l : List String) :
    ∀ seen, (dedupGo seen l).Sublist l := by
  induction l with
  | nil => intro seen; simp [dedupGo]
  | cons u rest ih =>
    intro seen
    rw [dedupGo]
    by_cases h : normalizeUrl u ∈ seen
    · simp only [h, if_pos, ite_true]
      exact (ih seen).cons u
    · simp only [h, ite_false]
      exact (ih (normalizeUrl u :: seen)).cons₂ u

/-- Re-running the dedup loop over its own output changes nothing. -/
theorem dedupGo_idem (l : List String) :
    ∀ seen, dedupGo seen (dedupGo seen l) = dedupGo seen l := by
  induction l with
  | nil => intro seen; simp [dedupGo]
  | cons u rest ih =>
    intro seen
    rw [dedupGo]
    by_cases h : normalizeUrl u ∈ seen
    · simp only [h, ite_true]
      exact ih seen
    · simp only [h, ite_false]
      rw [dedupGo]
      simp only [h, ite_false]
      rw [ih (normalizeUrl u :: seen)]

/-- Unfolding of `dedupeSpec` on a nonempty list. -/
theorem dedupeSpec_cons (u : String) (rest : List String) :
    dedupeSpec (u :: rest) =
      u :: dedupeSpec (rest.filter fun v => normalizeUrl v ≠ normalizeUrl u) := by
  rw [dedupeSpec.eq_def]

/-- The dedup loop equals the spec-side first-occurrence recursion run on
the input with the already-seen keys filtered out. -/
theorem dedupGo_eq_spec (l : List String) :
    ∀ seen, dedupGo seen l =
      dedupeSpec (l.filter fun v => decide (normalizeUrl v ∉ seen)) := by
  induction l with
  | nil => intro seen; simp [dedupGo, dedupeSpec]
  | cons u rest ih =>
    intro seen
    rw [dedupGo, List.filter_cons]
    by_cases h : normalizeUrl u ∈ seen
    · rw [if_pos h]
      have hd : decide (normalizeUrl u ∉ seen) = false := by simp [h]
      rw [hd]
      simp only [Bool.false_eq_true, if_false]
      exact ih seen
    · rw [if_neg h]
      have hd : decide (normalizeUrl u ∉ seen) = true := by simp [h]
      rw [hd]
      simp only [if_true]
      rw [dedupeSpec_cons, ih (normalizeUrl u :: seen), List.filter_filter]
      congr 1
      congr 1
      apply List.filter_congr
      intro v _
      by_cases h1 : normalizeUrl v = normalizeUrl u <;>
        by_cases h2 : normalizeUrl v ∈ seen <;>
          simp [List.mem_cons, h1, h2]

/-- C6: `deduplicateUrls` returns a subsequence of its input (hence no
longer than it), equal to the first-occurrence-per-normalized-key
selection (originals retained), and it is idempotent. -/
theorem c6_dedupe (urls : List String) :
    (deduplicateUrls urls).Sublist urls ∧
      (deduplicateUrls urls).length ≤ urls.length ∧
      deduplicateUrls (deduplicateUrls urls) = deduplicateUrls urls ∧
      deduplicateUrls urls = dedupeSpec urls := by
  refine ⟨dedupGo_sublist urls [], (dedupGo_sublist urls []).length_le,
    dedupGo_idem urls [], ?_⟩
  rw [deduplicateUrls, dedupGo_eq_spec urls []]
  congr 1
  apply List.filter_eq_self.mpr
  intro v _
  simp

/-! ### Batch scheduler lemmas -/

/-- The result component of the scheduler loop is the input mapped by the
task, whatever the completion schedule and counter state: `Promise.all`
hands the window's results back in window position order. -/
theorem runInBatchesTr_results {T R : Type} (c total : Nat) (task : T → R) :
    ∀ (n : Nat) (items : List T), items.length ≤ n → ∀ sched done,
      (runInBatchesTr c total task items sched done).1 = items.map task := by
  intro n
  induction n with
  | zero =>
    intro items hlen sched done
    have hnil : items = [] := List.eq_nil_of_length_eq_zero (Nat.le_zero.mp hlen)
    subst hnil
    rw [runInBatchesTr]
    rfl
  | succ m ih =>
    intro items hlen sched done
    match items with
    | [] => rw [runInBatchesTr]; rfl
    | x :: xs =>
      rw [runInBatchesTr]
      simp only
      rw [ih (xs.drop (c - 1)) (by simp at hlen ⊢; omega)]
      rw [← List.map_append, List.cons_append, List.take_append_drop]

/-- C4: for every item list, every concurrency ≥ 1, every task and every
completion schedule, `runInBatches` returns exactly one result per input
item, in input order: the result array equals `items.map task` (so
`result[i]` is the task's outcome for `items[i]`), independently of the
order in which tasks inside a window complete. -/
theorem c4_runInBatches {T R : Type} (items : List T) (concurrency : Nat)
    (task : T → R) (sched sched' : List (List Nat))
    (_hc : 1 ≤ concurrency) :
    (runInBatches items concurrency task sched).1 = items.map task ∧
      (runInBatches items concurrency task sched).1.length = items.length ∧
      (runInBatches items concurrency task sched).1 =
        (runInBatches items concurrency task sched').1 := by
  have h1 := runInBatchesTr_results concurrency items.length task items.length
    items le_rfl sched 0
  have h2 := runInBatchesTr_results concurrency items.length task items.length
    items le_rfl sched' 0
  refine ⟨h1, ?_, ?_⟩
  · rw [show (runInBatches items concurrency task sched).1 = items.map task from h1]
    exact List.length_map items task
  · rw [show (runInBatches items concurrency task sched).1 = items.map task from h1,
      show (runInBatches items concurrency task sched').1 = items.map task from h2]

/-- Witness for C4: three items, concurrency 2, a window schedule that
completes the second task of each window first; the results still come
back in input order. -/
theorem c4_runInBatches_witness :
    1 ≤ 2 ∧
      (runInBatches [10, 20, 30] 2 (fun n => n + 1) [[1, 0], [0]]).1 =
        [11, 21, 31] := by
  refine ⟨by decide, ?_⟩
  have h := (c4_runInBatches [10, 20, 30] 2 (fun n => n + 1)
    [[1, 0], [0]] [[0, 1], [0]] (by decide)).1
  rw [h]
  decide

/-! ### Link partition lemmas -/

/-- C9 counterexample: the anchor `about.html` is not excluded by
the `#`/`mailto:`/`tel:` rule, yet contributes to neither count: it does
not start with `/`, and `new URL("about.html")` (no base argument)
throws, so the catch block skips it. -/
theorem c9_counterexample :
    extractLinks ["about.html"] "example.com" = ([], 0) ∧
      ¬ (strStartsWith "about.html" "#" || strStartsWith "about.html" "mailto:" ||
        strStartsWith "about.html" "tel:") = true := by
  decide

/-- One step of the `extractLinks` loop, phrased through `linkClass`. -/
theorem extractLinksGo_cons (baseHost href : String) (rest : List String) :
    extractLinksGo baseHost (href :: rest) =
      match linkClass baseHost href with
      | none => extractLinksGo baseHost rest
      | some true =>
        (href :: (extractLinksGo baseHost rest).1, (extractLinksGo baseHost rest).2)
      | some false =>
        ((extractLinksGo baseHost rest).1, (extractLinksGo baseHost rest).2 + 1) := by
  rw [extractLinksGo, linkClass]
  by_cases h1 : (href = "" || strStartsWith href "#" || strStartsWith href "mailto:" ||
      strStartsWith href "tel:") = true
  · rw [if_pos h1, if_pos h1]
  · rw [if_neg h1, if_neg h1]
    by_cases h2 : (strStartsWith href "/" && ! strStartsWith href "//") = true
    · rw [if_pos h2, if_pos h2]
    · rw [if_neg h2, if_neg h2]
      cases hurl : jsUrlHostname href with
      | none => rfl
      | some lh => by_cases h3 : lh = baseHost <;> simp [h3]

/-- C9 (amended): `extractLinks` classifies every href by `linkClass` —
excluded prefixes (`#`, `mailto:`, `tel:`), empty hrefs, and hrefs whose
URL construction throws are skipped; single-slash-relative hrefs are
internal with no hostname check; the rest are internal exactly when
their parsed hostname equals the page host, external otherwise — and the
two counts partition exactly the non-skipped hrefs. -/
theorem c9_extractLinks (hrefs : List String) (baseHost : String) :
    extractLinks hrefs baseHost =
      ((hrefs.filter fun h => linkClass baseHost h == some true),
        (hrefs.filter fun h => linkClass baseHost h == some false).length) ∧
      (extractLinks hrefs baseHost).1.length + (extractLinks hrefs baseHost).2 =
        (hrefs.filter fun h => (linkClass baseHost h).isSome).length := by
  have key : ∀ l : List String, extractLinksGo baseHost l =
      ((l.filter fun h => linkClass baseHost h == some true),
        (l.filter fun h => linkClass baseHost h == some false).length) := by
    intro l
    induction l with
    | nil => rfl
    | cons href rest ih =>
      rw [extractLinksGo_cons, List.filter_cons, List.filter_cons, ih]
      cases hc : linkClass baseHost href with
      | none => simp [hc]
      | some b => cases b <;> simp [hc]
  have counts : ∀ l : List String,
      (l.filter fun h => linkClass baseHost h == some true).length +
        (l.filter fun h => linkClass baseHost h == some false).length =
        (l.filter fun h => (linkClass baseHost h).isSome).length := by
    intro l
    induction l with
    | nil => rfl
    | cons href rest ih =>
      rw [List.filter_cons, List.filter_cons, List.filter_cons]
      cases hc : linkClass baseHost href with
      | none => simpa using ih
      | some b => cases b <;> simp [List.length_cons] <;> omega
  have hmain := key hrefs
  refine ⟨hmain, ?_⟩
  rw [show extractLinks hrefs baseHost = extractLinksGo baseHost hrefs from rfl,
    hmain]
  exact counts hrefs

/-! ### Page classification -/

/-- C8: `classifyPage` checks URL path patterns first, in fixed priority
order — article shape `/a/<digits>/`, category shape (`/c/` or
`/choose-`), product shape `/p/`, gallery keyword — with the first match
winning regardless of JSON-LD; only when no path pattern matches does it
fall back to the JSON-LD `@type` (`product`, or
`article`/`newsarticle`/`blogposting` as article), defaulting to `page`.
Concretely: `/a/42/some-slug` is an article whatever the JSON-LD; no
path match with `@type "Product"` is a product; matching neither is a
page. -/
theorem c8_classifyPage (url : String) (j : Option JsonLd) :
    (testArticlePath (urlPathname url) = true → classifyPage url j = .article) ∧
      (testArticlePath (urlPathname url) = false →
        (strIncludes (urlPathname url) "/c/" ||
          strIncludes (urlPathname url) "/choose-") = true →
        classifyPage url j = .category) ∧
      (testArticlePath (urlPathname url) = false →
        (strIncludes (urlPathname url) "/c/" ||
          strIncludes (urlPathname url) "/choose-") = false →
        strIncludes (urlPathname url) "/p/" = true →
        classifyPage url j = .product) ∧
      (testArticlePath (urlPathname url) = false →
        (strIncludes (urlPathname url) "/c/" ||
          strIncludes (urlPathname url) "/choose-") = false →
        strIncludes (urlPathname url) "/p/" = false →
        strIncludes (lowerStr (urlPathname url)) "gallery" = true →
        classifyPage url j = .gallery) ∧
      (testArticlePath (urlPathname url) = false →
        (strIncludes (urlPathname url) "/c/" ||
          strIncludes (urlPathname url) "/choose-") = false →
        strIncludes (urlPathname url) "/p/" = false →
        strIncludes (lowerStr (urlPathname url)) "gallery" = false →
        ((j = none → classifyPage url j = .page) ∧
          (∀ jj, j = some jj →
            (lowerStr (jj.atType.getD "") = "product" →
              classifyPage url j = .product) ∧
            ((lowerStr (jj.atType.getD "") = "article" ∨
              lowerStr (jj.atType.getD "") = "newsarticle" ∨
              lowerStr (jj.atType.getD "") = "blogposting") →
              classifyPage url j = .article) ∧
            (lowerStr (jj.atType.getD "") ≠ "product" →
              lowerStr (jj.atType.getD "") ≠ "article" →
              lowerStr (jj.atType.getD "") ≠ "newsarticle" →
              lowerStr (jj.atType.getD "") ≠ "blogposting" →
              classifyPage url j = .page)))) ∧
      classifyPage "https://example.com/a/42/some-slug" j = .article ∧
      classifyPage "https://example.com/about-us" (some ⟨none, some "Product"⟩) =
        .product ∧
      classifyPage "https://example.com/about-us" (some ⟨none, some "Thing"⟩) =
        .page ∧
      classifyPage "https://example.com/about-us" none = .page := by
  refine ⟨fun h1 => ?_, fun h1 h2 => ?_, fun h1 h2 h3 => ?_, fun h1 h2 h3 h4 => ?_,
    fun h1 h2 h3 h4 => ⟨fun hj => ?_, fun jj hj => ?_⟩, ?_, by decide, by decide,
    by decide⟩
  · rw [classifyPage.eq_def]
    simp only [h1, if_true]
  · rw [classifyPage.eq_def]
    simp only [h1, h2, Bool.false_eq_true, if_false, if_true]
  · rw [classifyPage.eq_def]
    simp only [h1, h2, h3, Bool.false_eq_true, if_false, if_true]
  · rw [classifyPage.eq_def]
    simp only [h1, h2, h3, h4, Bool.false_eq_true, if_false, if_true]
  · subst hj
    rw [classifyPage.eq_def]
    simp only [h1, h2, h3, h4, Bool.false_eq_true, if_false]
  · subst hj
    refine ⟨fun ht => ?_, fun ht => ?_, fun ht1 ht2 ht3 ht4 => ?_⟩
    · rw [classifyPage.eq_def]
      simp only [h1, h2, h3, h4, Bool.false_eq_true, if_false, ht, if_true]
    · rw [classifyPage.eq_def]
      simp only [h1, h2, h3, h4, Bool.false_eq_true, if_false]
      rcases ht with ht | ht | ht <;> simp [ht]
    · rw [classifyPage.eq_def]
      simp only [h1, h2, h3, h4, Bool.false_eq_true, if_false]
      simp [ht1, ht2, ht3, ht4]
  · have harts : testArticlePath (urlPathname "https://example.com/a/42/some-slug") =
        true := by decide
    rw [classifyPage.eq_def]
    simp only [harts, if_true]

/-- Witness for C8: concrete instantiations discharging the hypotheses —
the article path pattern wins over a `Product` JSON-LD, and the category
shape `/c/` wins when the article shape is absent. -/
theorem c8_classifyPage_witness :
    classifyPage "https://example.com/a/42/x" (some ⟨none, some "Product"⟩) =
        .article ∧
      classifyPage "https://example.com/c/lamps" (some ⟨none, some "Product"⟩) =
        .category := by
  constructor
  · exact (c8_classifyPage "https://example.com/a/42/x"
      (some ⟨none, some "Product"⟩)).1 (by decide)
  · exact ((c8_classifyPage "https://example.com/c/lamps"
      (some ⟨none, some "Product"⟩)).2.1) (by decide) (by decide)

/-! ### Product variant fallback -/

/-- C7: when a product page has zero variant rows and a non-empty
displayed main price, both extractors synthesize exactly one variant
from that price; with at least one variant row, the variants list has
one entry per row — so the list is non-empty whenever any price exists.
The spec's vector holds: a main price of `"500 €"` gives excl-VAT
`"413.22"`. -/
theorem c7_variantFallback (doc : ProductDocS) (docD : ProductDocD)
    (u v : String) :
    (doc.variantRows = [] → cleanText doc.mainPriceText ≠ "" →
      (extractProduct doc u).variants =
        [⟨"", "", cleanText doc.mainPriceText,
          priceExclVat (cleanText doc.mainPriceText), false, ""⟩]) ∧
      (docD.variantRows = [] → cleanText docD.mainPriceText ≠ "" →
        (extractProductDyn docD v).variants =
          [[("price_incl_vat", cleanText docD.mainPriceText),
            ("price_excl_vat", priceExclVat (cleanText docD.mainPriceText)),
            ("in_stock", "false")]]) ∧
      (doc.variantRows ≠ [] →
        (extractProduct doc u).variants.length = doc.variantRows.length) ∧
      priceExclVat "500 €" = "413.22" := by
  refine ⟨fun hrows hprice => ?_, fun hrows hprice => ?_, fun hrows => ?_,
    by decide⟩
  · simp [extractProduct, hrows, hprice]
  · simp [extractProductDyn, hrows, hprice]
  · have hne : (doc.variantRows.map mkVariantS).isEmpty = false := by
      simp [List.isEmpty_iff, hrows]
    simp [extractProduct, hne]

/-- Witness for C7: a page with no variant rows and main price text
`"500 €"` yields, in both extractors, exactly the one synthesized
variant with excl-VAT `"413.22"`. -/
theorem c7_variantFallback_witness :
    (extractProduct ⟨"N", none, "", "", [], [], [], "500 €", [], []⟩
        "https://x").variants =
      [⟨"", "", "500 €", "413.22", false, ""⟩] ∧
      (extractProductDyn ⟨"N", none, "", "", [], [], [], "500 €", [], []⟩
          "https://x").variants =
        [[("price_incl_vat", "500 €"), ("price_excl_vat", "413.22"),
          ("in_stock", "false")]] := by
  have h := c7_variantFallback ⟨"N", none, "", "", [], [], [], "500 €", [], []⟩
    ⟨"N", none, "", "", [], [], [], "500 €", [], []⟩ "https://x" "https://x"
  have h1 := h.1 rfl (by decide)
  have h2 := h.2.1 rfl (by decide)
  rw [h1, h2]
  constructor
  · decide
  · decide

/-- C10: the synthesized fallback variant is always marked out of stock —
`in_stock := false` in the fixed-shape extractor, `"false"` in the
dynamic one — with empty (resp. absent) `color` and `art_no`, whatever
else the page contains; the `#228b22` style check is applied only to
explicit variant rows, whose variants it alone determines. -/
theorem c10_fallbackStock (doc : ProductDocS) (docD : ProductDocD)
    (u v : String) :
    (doc.variantRows = [] → ∀ w ∈ (extractProduct doc u).variants,
      w.in_stock = false ∧ w.color = "" ∧ w.art_no = "" ∧ w.status_text = "") ∧
      (docD.variantRows = [] → ∀ w ∈ (extractProductDyn docD v).variants,
        w.lookup "in_stock" = some "false" ∧ w.lookup "color" = none ∧
          w.lookup "art_no" = none) ∧
      (doc.variantRows ≠ [] →
        (extractProduct doc u).variants = doc.variantRows.map mkVariantS) ∧
      (∀ r : VariantRowS, (mkVariantS r).in_stock =
        strIncludes (lowerStr (r.whStyle.getD "")) "#228b22") := by
  refine ⟨fun hrows w hw => ?_, fun hrows w hw => ?_, fun hrows => ?_,
    fun r => rfl⟩
  · by_cases hprice : cleanText doc.mainPriceText = ""
    · simp [extractProduct, hrows, hprice] at hw
    · simp [extractProduct, hrows, hprice] at hw
      subst hw
      exact ⟨rfl, rfl, rfl, rfl⟩
  · by_cases hprice : cleanText docD.mainPriceText = ""
    · simp [extractProductDyn, hrows, hprice] at hw
    · simp [extractProductDyn, hrows, hprice] at hw
      subst hw
      exact ⟨rfl, rfl, rfl⟩
  · have hne : doc.variantRows.map mkVariantS ≠ [] := by simp [hrows]
    simp only [extractProduct]
    simp [List.isEmpty_iff, hne]

/-- Witness for C10: on a page with no variant rows, main price
`"500 €"`, the synthesized variant of the fixed-shape extractor is out of
stock with empty color/art-no, and the dynamic one maps `in_stock` to
`"false"` with no `color`/`art_no` keys. -/
theorem c10_fallbackStock_witness :
    ((⟨"", "", "500 €", "413.22", false, ""⟩ : ProductVariantS).in_stock = false ∧
      (⟨"", "", "500 €", "413.22", false, ""⟩ : ProductVariantS).color = "" ∧
      (⟨"", "", "500 €", "413.22", false, ""⟩ : ProductVariantS).art_no = "" ∧
      (⟨"", "", "500 €", "413.22", false, ""⟩ : ProductVariantS).status_text = "") ∧
      ([("price_incl_vat", "500 €"), ("price_excl_vat", "413.22"),
          ("in_stock", "false")].lookup "in_stock" = some "false" ∧
        [("price_incl_vat", "500 €"), ("price_excl_vat", "413.22"),
          ("in_stock", "false")].lookup "color" = none ∧
        [("price_incl_vat", "500 €"), ("price_excl_vat", "413.22"),
          ("in_stock", "false")].lookup "art_no" = none) := by
  have h := c10_fallbackStock ⟨"N", none, "", "", [], [], [], "500 €", [], []⟩
    ⟨"N", none, "", "", [], [], [], "500 €", [], []⟩ "https://x" "https://x"
  refine ⟨h.1 rfl ⟨"", "", "500 €", "413.22", false, ""⟩ ?_,
    h.2.1 rfl [("price_incl_vat", "500 €"), ("price_excl_vat", "413.22"),
      ("in_stock", "false")] ?_⟩
  · decide
  · decide

/-! ### Content truncation and word count -/

/-- Unfolding lemma: `String.mk` then `.data` is the identity. -/
theorem data_mk (l : List Char) : (String.mk l).data = l := rfl

/-- Unfolding lemma: a string's length is its character count. -/
theorem strLength_data (s : String) : s.length = s.data.length := rfl

/-- The content loop of the oversized page settles on the body text. -/
theorem selectedText_longPageDoc :
    selectedText longPageDoc =
      String.mk ((List.replicate 999 ['a', 'b', ' ']).flatten ++ ['a', 'b']) := by
  rw [selectedText, longPageDoc]
  generalize (List.replicate 999 ['a', 'b', ' ']).flatten ++ ['a', 'b'] = L
  simp [firstExisting]

/-- Whitespace collapse is the identity on the `"ab ab … ab"` pattern:
it has no adjacent whitespace. -/
theorem collapse_abPattern : ∀ (n : Nat) (b : Bool),
    collapseGo b ((List.replicate n ['a', 'b', ' ']).flatten ++ ['a', 'b']) =
      (List.replicate n ['a', 'b', ' ']).flatten ++ ['a', 'b'] := by
  intro n
  induction n with
  | zero => intro b; cases b <;> rfl
  | succ m ih =>
    intro b
    have hstep : ∀ (b' : Bool) (xs : List Char),
        collapseGo b' ('a' :: 'b' :: ' ' :: xs) =
          'a' :: 'b' :: ' ' :: collapseGo true xs := fun b' xs => rfl
    simp only [List.replicate_succ, List.flatten_cons, List.cons_append,
      List.nil_append, List.append_assoc]
    rw [hstep, ih true]

/-- Trimming is the identity on the pattern: it starts with `a` and ends
with `b`. -/
theorem trim_abPattern (n : Nat) :
    trimWs ((List.replicate n ['a', 'b', ' ']).flatten ++ ['a', 'b']) =
      (List.replicate n ['a', 'b', ' ']).flatten ++ ['a', 'b'] := by
  have hrev : (((List.replicate n ['a', 'b', ' ']).flatten ++ ['a', 'b']) :
      List Char).reverse =
      'b' :: 'a' :: ((List.replicate n ['a', 'b', ' ']).flatten).reverse := by
    simp
  rw [trimWs, dropWsLeft, hrev, List.dropWhile_cons]
  simp only [show isJsWs 'b' = false from rfl, Bool.false_eq_true, if_false]
  rw [show ('b' :: 'a' :: ((List.replicate n ['a', 'b', ' ']).flatten).reverse).reverse
      = (List.replicate n ['a', 'b', ' ']).flatten ++ ['a', 'b'] from by simp]
  cases n with
  | zero => rfl
  | succ m =>
    simp only [List.replicate_succ, List.flatten_cons, List.cons_append,
      List.nil_append]
    rw [List.dropWhile_cons]
    simp only [show isJsWs 'a' = false from rfl, Bool.false_eq_true, if_false]

/-- The cleaned text of the oversized page is the full 2999-character
pattern. -/
theorem cleanedText_longPageDoc :
    (cleanedText longPageDoc).data =
      (List.replicate 999 ['a', 'b', ' ']).flatten ++ ['a', 'b'] := by
  rw [cleanedText, selectedText_longPageDoc, trimStr, data_mk, data_mk, data_mk,
    collapse_abPattern, trim_abPattern]

/-- The pattern `"ab ab … ab"` with `n` separating blocks has exactly `n`
whitespace runs. -/
theorem wsRuns_abPattern : ∀ (n : Nat) (b : Bool),
    wsRunsGo b ((List.replicate n ['a', 'b', ' ']).flatten ++ ['a', 'b']) = n := by
  intro n
  induction n with
  | zero => intro b; cases b <;> rfl
  | succ m ih =>
    intro b
    have hstep : ∀ (b' : Bool) (xs : List Char),
        wsRunsGo b' ('a' :: 'b' :: ' ' :: xs) = 1 + wsRunsGo true xs :=
      fun b' xs => rfl
    simp only [List.replicate_succ, List.flatten_cons, List.cons_append,
      List.nil_append, List.append_assoc]
    rw [hstep, ih true]
    omega

/-- Length of the repeated block. -/
theorem length_abPattern (n : Nat) :
    ((List.replicate n ['a', 'b', ' ']).flatten).length = 3 * n := by
  induction n with
  | zero => rfl
  | succ m ih =>
    simp only [List.replicate_succ, List.flatten_cons, List.length_append, ih,
      List.length_cons, List.length_nil]
    omega

/-- The truncated content of the oversized page is the 2000-character
prefix: 666 blocks and a final `"ab"`. -/
theorem extractContent_longPageDoc :
    (extractContent longPageDoc).data =
      (List.replicate 666 ['a', 'b', ' ']).flatten ++ ['a', 'b'] := by
  rw [extractContent, data_mk, cleanedText_longPageDoc]
  rw [show (999 : Nat) = 666 + 333 from rfl, List.replicate_add,
    List.flatten_append, List.append_assoc, List.take_append_eq_append_take]
  have h1 : ((List.replicate 666 ['a', 'b', ' ']).flatten).length = 1998 := by
    rw [length_abPattern]
  rw [List.take_of_length_le (by rw [h1]; omega), h1]
  congr 1

/-- C1 counterexample: for the 2999-character page, the reported
`word_count` is 667 — the word count of the 2000-character truncated
prefix — while the full cleaned text has 1000 words; the claim's
equation `word_count = words of the untruncated text` fails. -/
theorem c1_counterexample :
    (cleanedText longPageDoc).length = 2999 ∧
      (extractContent longPageDoc).length = 2000 ∧
      pageWordCount longPageDoc = 667 ∧
      splitWsLen (cleanedText longPageDoc) = 1000 ∧
      (667 : Nat) ≠ 1000 := by
  have hclean := cleanedText_longPageDoc
  have hcontent := extractContent_longPageDoc
  have hlenc : (cleanedText longPageDoc).length = 2999 := by
    rw [strLength_data, hclean, List.length_append, length_abPattern]
    decide
  have hlent : (extractContent longPageDoc).length = 2000 := by
    rw [strLength_data, hcontent, List.length_append, length_abPattern]
    decide
  refine ⟨hlenc, hlent, ?_, ?_, by decide⟩
  · have hne : ¬ extractContent longPageDoc = "" := by
      intro h
      rw [h] at hlent
      exact absurd hlent (by decide)
    rw [pageWordCount]
    simp only [hne, if_false]
    rw [splitWsLen, hcontent, wsRuns_abPattern 666 false]
  · rw [splitWsLen, hclean, wsRuns_abPattern 999 false]

/-- C1 (amended): `crawlPage`'s content is truncated to at most 2000
characters, and `word_count` is the `split(/\\s+/)` field count of the
**truncated** content (0 for an empty content), not of the untruncated
text. -/
theorem c1_truncation (d : PageDoc) :
    (extractContent d).length ≤ 2000 ∧
      pageWordCount d =
        (if extractContent d = "" then 0 else splitWsLen (extractContent d)) := by
  constructor
  · rw [strLength_data, extractContent, data_mk, List.length_take]
    omega
  · rfl

/-- C5, code bug exhibited: on a page with no JSON-LD, no
`itemprop="price"` element, and a `.price` element with text `"42 €"`,
`extractPrice` returns an empty price even though the class-selector
source would yield `"42"`: `$('[itemprop="price"]').text()` is always a
string (`""` for an empty selection), so the `??` chain never reaches
the third source. -/
theorem c5_deadFallback :
    extractPrice ⟨none, "", "42 €", none⟩ none = ("", "") ∧
      trimStr (String.mk (keepPriceChars ("42 €").data)) = "42" := by
  decide

end Craw
